import Mathlib

/-!
# OpenSDL semantic analyser and layout engine: a shallow embedding

This file embeds, in Lean 4, the parts of OpenSDL's semantic-action layer
(`library/utility/opensdl_actions.c`) that govern bitfield packing, adaptive
host-width promotion, filler generation, aggregate sizing, bitfield mask/size
constant emission, tag resolution, the conditional-compilation state machine,
and the aggregate member/completion dispatcher entries.  Queues of members are
embedded as Lean lists (queue head = list head, `blink` = last element);
C `int64_t` values are embedded as `Int`; C strings as `String`.

A few small helpers (`sdl_sizeof` for bitfield host types, `sdl_all_lower`,
`sdl_isItem`/`sdl_isComment`/`sdl_isBitfield`) live in `opensdl_utility.c`,
which is not part of the source tree available here; those definitions are
modelled from the specification and are marked as such in their doc comments.
-/

namespace OpenSDL

/-- Base/member type codes used by the layout engine, from `opensdl_defs.h`
(the member `type` field of `SDL_MEMBERS` / `SDL_ITEM`).  Only the
constructors needed by the layout engine and tag resolver are carried;
`SDL_K_TYPE_BITFLD` is the
generic (unsized) bitfield code delivered by the parser, and
`SDL_K_TYPE_BITFLD_B/W/L/Q/O` are the host-sized bitfield codes. -/
inductive SdlType where
  | byte | word | long | quad | octa
  | bitfld | bitfldB | bitfldW | bitfldL | bitfldQ | bitfldO
  | char | charVary | charStar | decimal
  | addr | boolT
  | structT | unionT
  | anyT
deriving DecidableEq, Repr

/-- Modelled from the spec: `sdl_sizeof` lives in the missing
`opensdl_utility.c`.  Natural byte sizes follow §3 of the specification
("integers from 8 to 128 bits") and the in-repository `_sdl_sizeof` of
`src/opensdl_actions.c` (byte 1, word 2, long 4, quad 8, octa 16); a
host-sized bitfield has the size of its host integer; `STRUCTURE`/`UNION`
type codes fall outside every recognised range in `_sdl_sizeof` and yield
0. -/
def sdlSizeof : SdlType → Int
  | .byte => 1
  | .word => 2
  | .long => 4
  | .quad => 8
  | .octa => 16
  | .bitfld => 1
  | .bitfldB => 1
  | .bitfldW => 2
  | .bitfldL => 4
  | .bitfldQ => 8
  | .bitfldO => 16
  | .char => 1
  | .charVary => 1
  | .charStar => 8
  | .decimal => 4
  | .addr => 8
  | .boolT => 1
  | .structT => 0
  | .unionT => 0
  | .anyT => 0

/-- Alignment setting of an item or (sub)aggregate: `SDL_K_NOALIGN`,
`SDL_K_ALIGN`, or an explicit `BASEALIGN` byte count. -/
inductive Alignment where
  | noAlign
  | align
  | base (n : Int)
deriving DecidableEq, Repr

/-- The item payload of an aggregate member (`SDL_ITEM` inside
`SDL_MEMBERS`), restricted to the fields the layout engine and constant
generator read or write. -/
structure SdlItem where
  id : String
  type : SdlType
  length : Int := 0
  bitOffset : Int := 0
  mask : Bool := false
  sizedBitfield : Bool := false
  unsignedFlag : Bool := true
  size : Int := 0
  dimension : Bool := false
  lbound : Int := 0
  hbound : Int := 0
  precision : Int := 0
  alignment : Alignment := .noAlign
  pfx : String := ""
  tag : String := ""
deriving DecidableEq, Repr

/-- The subaggregate payload of an aggregate member (`SDL_SUBAGGR`),
restricted to the fields the layout engine reads. -/
structure SdlSubaggr where
  id : String
  aggType : SdlType
  size : Int := 0
  dimension : Bool := false
  lbound : Int := 0
  hbound : Int := 0
deriving DecidableEq, Repr

/-- The payload variants of `SDL_MEMBERS`: an item, a nested subaggregate,
or a comment. -/
inductive MemberBody where
  | item : SdlItem → MemberBody
  | subaggr : SdlSubaggr → MemberBody
  | commentB : MemberBody
deriving DecidableEq, Repr

/-- One aggregate member (`SDL_MEMBERS`): the shared byte offset plus the
payload. -/
structure Member where
  offset : Int := 0
  payload : MemberBody
deriving DecidableEq, Repr

/-- Modelled from the spec: `sdl_isComment` lives in the missing
`opensdl_utility.c`; a member is a comment exactly when its payload is the
comment variant. -/
def sdlIsComment (m : Member) : Bool :=
  match m.payload with
  | .commentB => true
  | _ => false

/-- Modelled from the spec: `sdl_isItem` lives in the missing
`opensdl_utility.c`.  Per its uses in `_sdl_aggregate_size` (a comment
member passes the `sdl_isItem` test and is then screened by
`sdl_isComment`), everything that is not a subaggregate counts as an
item. -/
def sdlIsItem (m : Member) : Bool :=
  match m.payload with
  | .subaggr _ => false
  | _ => true

/-- Whether a type code is one of the host-sized bitfield codes. -/
def isBitfieldType (t : SdlType) : Bool :=
  match t with
  | .bitfld | .bitfldB | .bitfldW | .bitfldL | .bitfldQ | .bitfldO => true
  | _ => false

/-- Modelled from the spec: `sdl_isBitfield` lives in the missing
`opensdl_utility.c`; a member is a bitfield when it is an item whose type is
one of the bitfield codes. -/
def sdlIsBitfield (m : Member) : Bool :=
  match m.payload with
  | .item i => isBitfieldType i.type
  | _ => false

/-- Modelled from the spec: `sdl_all_lower` lives in the missing
`opensdl_utility.c`.  A string is all-lowercase when every alphabetic
character in it is lowercase (non-alphabetic characters are ignored; the
empty string qualifies), per "tag `"S"` (uppercase) or `"s"` (lowercase)
chosen to match the case of the host id". -/
def sdlAllLower (s : String) : Bool :=
  s.data.all (fun c => !c.isAlpha || c.isLower)

/-- The last non-comment member of a member list (the backward walk from
`memberList->blink` over `sdl_isComment` members that opens
`_sdl_determine_offsets` and `_sdl_check_bitfieldSizes`). -/
def lastNonComment (l : List Member) : Option Member :=
  l.reverse.find? (fun m => !sdlIsComment m)

/-- One member is an unsized bitfield item: the run-membership test of
`_sdl_check_bitfieldSizes` (item, type in `BITFLD_B/W/L/Q/O`, and
`sizedBitfield == false`). -/
def isUnsizedBitfield (m : Member) : Bool :=
  match m.payload with
  | .item i =>
    (i.type = .bitfldB || i.type = .bitfldW || i.type = .bitfldL ||
     i.type = .bitfldQ || i.type = .bitfldO) && !i.sizedBitfield
  | _ => false

/-- The width-promotion cascade of `_sdl_check_bitfieldSizes` (lines
6112-6152): byte to word past 8 bits, word to longword past 16, longword to
quadword past 32; the fourth branch in the source re-tests the longword
case with the 64-bit threshold (its comment announces quadword to octaword)
and is therefore unreachable, so the cascade never reaches the octaword
host. -/
def promoteBitfieldType (t : SdlType) (len : Int) : SdlType :=
  let t1 := if t = .bitfldB ∧ len > 8 then .bitfldW else t
  let t2 := if t1 = .bitfldW ∧ len > 16 then .bitfldL else t1
  let t3 := if t2 = .bitfldL ∧ len > 32 then .bitfldQ else t2
  if t3 = .bitfldL ∧ len > 64 then .bitfldQ else t3

/-- Replace the type and size of an unsized-bitfield item member; leaves
any other member unchanged. -/
def setMemberTypeSize (ts : SdlType × Int) (m : Member) : Member :=
  match m.payload with
  | .item i => { m with payload := .item { i with type := ts.1, size := ts.2 } }
  | _ => m

/-- Walk a reversed member list and split off the scanned segment of
`_sdl_check_bitfieldSizes`: comments are skipped (but stay in place) and
unsized bitfield items are collected, until either a boundary member (any
other member) or the head of the list is reached.  Returns the scanned
segment (still reversed, comments included), the remainder, and whether the
walk ended at the list head. -/
def collectSeg : List Member → List Member × List Member × Bool
  | [] => ([], [], true)
  | m :: rest =>
    if sdlIsComment m ∨ isUnsizedBitfield m then
      let (seg, r, h) := collectSeg rest
      (m :: seg, r, h)
    else ([], m :: rest, false)

/-- Sum of the declared bit lengths of the run members (the non-comment
members of the scanned segment). -/
def runLengthSum (seg : List Member) : Int :=
  (seg.filter (fun m => !sdlIsComment m)).foldl
    (fun acc m =>
      match m.payload with
      | .item i => acc + i.length
      | _ => acc) 0

/-- Number of run members in the scanned segment. -/
def runCount (seg : List Member) : Nat :=
  (seg.filter (fun m => !sdlIsComment m)).length

/-- Type and size of a member assumed to be an item (garbage values for the
other payloads, which the callers exclude). -/
def memberTypeSize (m : Member) : SdlType × Int :=
  match m.payload with
  | .item i => (i.type, i.size)
  | _ => (.anyT, 0)

/-- Update the first `k` run members (counting from the end of the list,
i.e. from the front of the reversed segment) to the given type/size,
leaving comments and the remaining run members untouched. -/
def updateRunPrefix (ts : SdlType × Int) (k : Nat) : List Member → List Member
  | [] => []
  | m :: rest =>
    if sdlIsComment m then m :: updateRunPrefix ts k rest
    else match k with
      | 0 => m :: rest
      | Nat.succ k0 => setMemberTypeSize ts m :: updateRunPrefix ts k0 rest

/-- `_sdl_check_bitfieldSizes` (lines 6031-6171), as a function from the
member list and the incoming member's bit length to the updated member list
and the type/size the incoming member is to adopt (`none` when the scan
bails out before touching it).  The recursion of the source walks backwards
over the maximal run of contiguous unsized bitfields and behaves
differently according to how the walk ends:

* walk reaches the list head: the earliest run member is promoted using the
  total bit length (new length plus every run member's length) and every
  other run member, and the incoming member, copies the promoted
  type/size;
* walk stops at a boundary member and the run has at least two members:
  the frame looking at the earliest run member returns before updating it
  (`else return`), so the earliest run member keeps its old width while the
  *second*-earliest is promoted with the full total and the rest copy it;
* walk stops at a boundary and the run has exactly one member: nothing in
  the list changes and the incoming member copies that member's existing
  type/size;
* the run is empty: the scan returns with no effect. -/
def checkBitfieldSizes (l : List Member) (newLen : Int) :
    List Member × Option (SdlType × Int) :=
  let rev := l.reverse
  let (seg, rest, atHead) := collectSeg rev
  let k := runCount seg
  let total := newLen + runLengthSum seg
  if k = 0 then (l, none)
  else if atHead then
    let run := seg.filter (fun m => !sdlIsComment m)
    let deepest := run.getLastD { payload := .commentB }
    let newT := promoteBitfieldType (memberTypeSize deepest).1 total
    let ts := (newT, sdlSizeof newT)
    ((updateRunPrefix ts k seg ++ rest).reverse, some ts)
  else if k = 1 then
    let run := seg.filter (fun m => !sdlIsComment m)
    let first := run.headD { payload := .commentB }
    (l, some (memberTypeSize first))
  else
    let run := seg.filter (fun m => !sdlIsComment m)
    let secondDeepest := (run.drop (k - 2)).headD { payload := .commentB }
    let newT := promoteBitfieldType (memberTypeSize secondDeepest).1 total
    let ts := (newT, sdlSizeof newT)
    ((updateRunPrefix ts (k - 1) seg ++ rest).reverse, some ts)

/-- Default `SdlItem` used to read item fields out of a payload that is not
an item (the C source would perform a type-punned union read there; every
caller below excludes this case). -/
def defaultItem : SdlItem := { id := "", type := .anyT }

/-- The item payload of a member (callers guarantee the member is an
item). -/
def itemOf (m : Member) : SdlItem :=
  match m.payload with
  | .item i => i
  | _ => defaultItem

/-- The `length`-or-`precision` factor used by the layout engine when
computing a previous item's real size (`_sdl_determine_offsets` lines
5112-5132): `length` for `CHAR`/`CHAR VARYING`, `precision` for `DECIMAL`,
1 otherwise, and a zero factor is replaced by 1. -/
def itemLengthFactor (i : SdlItem) : Int :=
  let len :=
    match i.type with
    | .char | .charVary => i.length
    | .decimal => i.precision
    | _ => 1
  if len = 0 then 1 else len

/-- Real byte size of an item: natural size times the length factor, plus
2 bytes for the `CHAR VARYING` length prefix or 1 byte for the `DECIMAL`
sign nibble (`_sdl_determine_offsets` lines 5134-5151). -/
def itemRealSize (i : SdlItem) : Int :=
  let rs := i.size * itemLengthFactor i
  if i.type = .charVary then rs + 2
  else if i.type = .decimal then rs + 1
  else rs

/-- Dimension cardinality of an item: `hbound - lbound + 1` when a
dimension was declared, 1 otherwise. -/
def itemDimension (i : SdlItem) : Int :=
  if i.dimension then i.hbound - i.lbound + 1 else 1

/-- Dimension cardinality of a subaggregate member. -/
def subaggrDimension (s : SdlSubaggr) : Int :=
  if s.dimension then s.hbound - s.lbound + 1 else 1

/-- Name of the `number`-th synthesised filler, per the
`sprintf(idBuf, "filler_%03d", number)` of `_sdl_fill_bitfield`. -/
def fillerId (n : Nat) : String :=
  if n < 10 then "filler_00" ++ toString n
  else if n < 100 then "filler_0" ++ toString n
  else "filler_" ++ toString n

/-- `_sdl_fill_bitfield` (lines 5499-5537): the synthesised filler member
is a wholesale copy of the preceding bitfield member (type, size, byte
offset and the rest come along via `memcpy`), with the id replaced by
`filler_NNN`, the length replaced by the number of unused tail bits, the
mask flag cleared, and the bit offset set to the predecessor's bit offset
plus one. -/
def fillBitfield (prev : SdlItem) (prevOffset : Int) (bits : Int) (number : Nat) : Member :=
  { offset := prevOffset,
    payload := .item { prev with
      id := fillerId number,
      length := bits,
      mask := false,
      bitOffset := prev.bitOffset + 1 } }

/-- Result of `_sdl_determine_offsets`: the member with its offsets
assigned, the member list (fillers may have been appended and run members
promoted in place), and the filler counter. -/
structure OffsetsResult where
  member : Member
  members : List Member
  fillerCount : Nat
deriving Repr

/-- The sized-bitfield resize cascade of `_sdl_determine_offsets` (lines
5199-5243).  As in the source, the fourth branch is a verbatim duplicate of
the third (longword and more than 32 bits gives quadword) although its
comment announces the quadword-to-octaword step. -/
def resizeSizedBitfield (i : SdlItem) : SdlItem :=
  if i.sizedBitfield then
    let t1 := if i.type = .bitfldB ∧ i.length > 8 then .bitfldW else i.type
    let t2 := if t1 = .bitfldW ∧ i.length > 16 then .bitfldL else t1
    let t3 := if t2 = .bitfldL ∧ i.length > 32 then .bitfldQ else t2
    let t4 := if t3 = .bitfldL ∧ i.length > 32 then .bitfldQ else t3
    { i with type := t4, size := sdlSizeof t4 }
  else i

/-- Byte offset contributed by the member preceding a new bitfield that
starts a fresh host (`_sdl_determine_offsets` lines 5106-5192): offset of
the previous member plus its real size times its dimension (for an item),
or plus its size times its dimension (for a non-union subaggregate; zero
for a union subaggregate); with no previous member, the parent
subaggregate's offset (when not at top level) or zero. -/
def freshHostOffset (prev? : Option Member) (top : Bool) (parentOffset : Int) : Int :=
  match prev? with
  | some p =>
    match p.payload with
    | .item pi => p.offset + itemRealSize pi * itemDimension pi
    | .subaggr ps =>
      let sz := if ps.aggType ≠ .unionT then ps.size * subaggrDimension ps else 0
      p.offset + sz
    | .commentB => p.offset
  | none => if !top then parentOffset else 0

/-- Byte offset of a new non-bitfield member (`_sdl_determine_offsets`
lines 5349-5431): previous member's offset plus real size times dimension,
except that in a union the real size is zero so every member shares the
previous offset; zero when there is no previous member. -/
def nextMemberOffset (prev? : Option Member) (parentIsUnion : Bool) : Int :=
  match prev? with
  | some p =>
    if parentIsUnion then p.offset
    else
      match p.payload with
      | .item pi => p.offset + itemRealSize pi * itemDimension pi
      | .subaggr ps => p.offset + ps.size * subaggrDimension ps
      | .commentB => p.offset
  | none => 0

/-- The alignment epilogue of `_sdl_determine_offsets` (lines 5437-5469):
an item member's offset is padded to its natural size under `ALIGN`, to the
explicit byte count under `BASEALIGN n`, and left alone under `NOALIGN`;
subaggregate members receive no padding here. -/
def applyMemberAlignment (m : Member) : Member :=
  match m.payload with
  | .item i =>
    let adjustment :=
      match i.alignment with
      | .noAlign => 0
      | .align =>
        let r := m.offset % i.size
        if r ≠ 0 then i.size - r else 0
      | .base n =>
        let r := m.offset % n
        if r ≠ 0 then n - r else 0
    { m with offset := m.offset + adjustment }
  | _ => m

/-- `_sdl_determine_offsets` (lines 5039-5475).  Comments are placed
without layout.  A bitfield following a non-bitfield starts a new host at
bit offset 0 (with the sized-bitfield resize cascade applied); a bitfield
following a bitfield first runs the `_sdl_check_bitfieldSizes` promotion
scan (when unsized), then either extends the current host (same host size
and enough room) or starts a new host, sealing the previous one with a
filler when tail bits remain and the parent is not a union.  A non-bitfield
member seals a preceding bitfield host the same way and is placed after the
previous member's real extent.  Finally the alignment epilogue pads item
members. -/
def determineOffsets (member : Member) (list : List Member) (parentIsUnion : Bool)
    (top : Bool) (parentOffset : Int) (fillerCount : Nat) : OffsetsResult :=
  if sdlIsComment member then ⟨member, list, fillerCount⟩
  else
    let prev? := lastNonComment list
    let prevIsBitfield :=
      match prev? with
      | some p => sdlIsBitfield p
      | none => false
    if sdlIsBitfield member then
      if !prevIsBitfield then
        let i := { itemOf member with bitOffset := (0 : Int) }
        let offset := freshHostOffset prev? top parentOffset
        let i := resizeSizedBitfield i
        let m := applyMemberAlignment { offset := offset, payload := .item i }
        ⟨m, list, fillerCount⟩
      else
        let i := itemOf member
        let scan :=
          if !i.sizedBitfield then checkBitfieldSizes list i.length
          else (list, none)
        let list1 := scan.1
        let i :=
          match scan.2 with
          | some ts => { i with type := ts.1, size := ts.2 }
          | none => i
        let p := ((lastNonComment list1).getD { payload := .commentB })
        let pi := itemOf p
        let availBits := pi.size * 8 - pi.bitOffset - pi.length
        if i.size = pi.size ∧ i.length ≤ availBits then
          let m := applyMemberAlignment
            { offset := p.offset,
              payload := .item { i with bitOffset := pi.bitOffset + pi.length } }
          ⟨m, list1, fillerCount⟩
        else
          let m := applyMemberAlignment
            { offset := p.offset + pi.size,
              payload := .item { i with bitOffset := (0 : Int) } }
          if availBits > 0 ∧ ¬parentIsUnion then
            ⟨m, list1 ++ [fillBitfield pi p.offset availBits fillerCount], fillerCount + 1⟩
          else
            ⟨m, list1, fillerCount⟩
    else
      let sealStep :=
        match prev? with
        | some p =>
          if sdlIsBitfield p then
            let pi := itemOf p
            let availBits := pi.size * 8 - pi.bitOffset - pi.length
            if availBits > 0 ∧ ¬parentIsUnion then
              (list ++ [fillBitfield pi p.offset availBits fillerCount], fillerCount + 1)
            else (list, fillerCount)
          else (list, fillerCount)
        | none => (list, fillerCount)
      let offset := nextMemberOffset prev? parentIsUnion
      let m := applyMemberAlignment { member with offset := offset }
      ⟨m, sealStep.1, sealStep.2⟩

/-- Default tag letters of the `_defaultTag` table (lines 54-109) for the
type codes carried in this embedding. -/
def defaultTag : SdlType → String
  | .byte => "B"
  | .word => "W"
  | .long => "L"
  | .quad => "Q"
  | .octa => "O"
  | .bitfld => "V"
  | .bitfldB => "VB"
  | .bitfldW => "VW"
  | .bitfldL => "VL"
  | .bitfldQ => "VQ"
  | .bitfldO => "VO"
  | .char => "C"
  | .charVary => "CV"
  | .charStar => "CS"
  | .decimal => "P"
  | .addr => "A"
  | .boolT => "B"
  | .structT => "R"
  | .unionT => "R"
  | .anyT => ""

/-- A datatype reference as passed to `_sdl_get_tag`: the `CONSTANT` code,
a base type code, or a user-type id out of the `DECLARE`, `ITEM` or
`AGGREGATE` ranges (an id outside every range resolves like `ANY`). -/
inductive Datatype where
  | constT
  | base (t : SdlType)
  | declareRef (n : Nat)
  | itemRef (n : Nat)
  | aggrRef (n : Nat)
  | unknown
deriving DecidableEq, Repr

/-- Tag and underlying type of a registered declare/item/aggregate, as read
by `_sdl_get_tag`. -/
structure TagEntry where
  tag : String
  typeID : Datatype
deriving DecidableEq, Repr

/-- The slices of the context consulted by `_sdl_get_tag`: the three
numbered namespaces, as association lists from id to entry. -/
structure TagContext where
  declares : List (Nat × TagEntry) := []
  items : List (Nat × TagEntry) := []
  aggregates : List (Nat × TagEntry) := []
deriving Repr

/-- Drop a maximal suffix of underscores from a character list. -/
def dropTrailingUnderscores (l : List Char) : List Char :=
  (l.reverse.dropWhile (fun c => c = '_')).reverse

/-- The explicit-tag branch of `_sdl_get_tag` (lines 4463-4486): the
trimming loop runs from the last character down to index 1 — never index
0 — so every trailing underscore after the first character is removed but
the first character itself always survives (an all-underscore tag keeps one
underscore).  The loop underflows on an empty tag in C; the embedding
returns the empty string there. -/
def trimTagEnd (s : String) : String :=
  match s.data with
  | [] => ""
  | c :: rest => String.mk (c :: dropTrailingUnderscores rest)

/-- ASCII lowercasing of a string (the `tolower` loop of `_sdl_get_tag`
and the `strcasecmp` of `sdl_conditional`). -/
def lowerStr (s : String) : String :=
  String.mk (s.data.map Char.toLower)

/-- The defaulted branch of `_sdl_get_tag` (no explicit tag): a base type
yields its default tag letter; a declare/item/aggregate id yields that
entity's tag when non-empty and otherwise recurses into its underlying
type id; an unregistered id yields the `ANY` default; and the result is
lowercased when the host id was all-lowercase.  The C recursion terminates
because type ids are issued monotonically; the embedding carries explicit
fuel and returns the empty string on exhaustion. -/
def sdlGetTagDefault (ctx : TagContext) (lower : Bool) : Nat → Datatype → String
  | fuel, dt =>
    let resolve : TagEntry → String := fun e =>
      if 0 < e.tag.length then e.tag
      else
        match fuel with
        | 0 => ""
        | Nat.succ f => sdlGetTagDefault ctx lower f e.typeID
    let r :=
      match dt with
      | .constT => "K"
      | .base t => defaultTag t
      | .declareRef n =>
        match (ctx.declares.find? (fun p => p.1 = n)).map Prod.snd with
        | some e => resolve e
        | none => defaultTag .anyT
      | .itemRef n =>
        match (ctx.items.find? (fun p => p.1 = n)).map Prod.snd with
        | some e => resolve e
        | none => defaultTag .anyT
      | .aggrRef n =>
        match (ctx.aggregates.find? (fun p => p.1 = n)).map Prod.snd with
        | some e => resolve e
        | none => defaultTag .anyT
      | .unknown => defaultTag .anyT
    if lower then lowerStr r else r

/-- `_sdl_get_tag` (lines 4333-4492): an explicit tag is trimmed by
`trimTagEnd` and returned as-is — the lowercase flag is applied only in
the defaulted branch, which `sdlGetTagDefault` carries out. -/
def sdlGetTag (ctx : TagContext) (tag : Option String) (dt : Datatype)
    (lower : Bool) (fuel : Nat) : String :=
  match tag with
  | some t => trimTagEnd t
  | none => sdlGetTagDefault ctx lower fuel dt

/-- Display radix of a constant. -/
inductive Radix where
  | dec | oct | hex
deriving DecidableEq, Repr

/-- A numeric constant record (`SDL_CONSTANT`) as produced by
`_sdl_create_constant` for the synthesised size and mask constants. -/
structure SdlConstant where
  id : String
  pfx : String
  tag : String
  radix : Radix
  value : Int
  size : Int
deriving DecidableEq, Repr

/-- Mask value computed by `_sdl_create_bitfield_constants` (lines
6255-6264): `((uint64_t) pow(2, length) - 1) << bitOffset` in 64-bit
unsigned arithmetic.  `pow` is exact on powers of two and the conversion to
`uint64_t` is in range exactly when `length ≤ 63`; the theorems about this
value carry that bound as a hypothesis. -/
def maskValue (len off : Int) : Int :=
  ((((2 ^ len.toNat - 1) <<< off.toNat) % 2 ^ 64 : ℕ) : Int)

/-- Constants generated for one member by the loop body of
`_sdl_create_bitfield_constants` (lines 6217-6298): nothing for a
non-bitfield; for a bitfield, a decimal size constant holding the bit
length (tag `"s"`/`"S"` by the case of the member id, display size the
command-line word size) and, when the mask flag is set, a hexadecimal mask
constant (tag `"m"`/`"M"`, display size the member's host width in
bytes). -/
def constantsForBitfieldMember (m : Member) (wordSize : Int) : List SdlConstant :=
  match m.payload with
  | .item i =>
    if isBitfieldType i.type then
      let sizeConst : SdlConstant :=
        { id := i.id, pfx := i.pfx, tag := if sdlAllLower i.id then "s" else "S",
          radix := .dec, value := i.length, size := wordSize }
      if i.mask then
        [sizeConst,
          { id := i.id, pfx := i.pfx, tag := if sdlAllLower i.id then "m" else "M",
            radix := .hex, value := maskValue i.length i.bitOffset, size := i.size }]
      else [sizeConst]
    else []
  | _ => []

/-- `_sdl_create_bitfield_constants` over a whole member list, in queue
order. -/
def createBitfieldConstants (members : List Member) (wordSize : Int) : List SdlConstant :=
  members.flatMap (fun m => constantsForBitfieldMember m wordSize)

/-- Descriptor of the aggregate or subaggregate being sized: id, prefix,
aggregate kind (`aggType`: structure or union), the `type` field (the
scalar type code of an implicit union, or the structure/union code), and
the alignment setting. -/
structure AggDesc where
  id : String
  pfx : String := ""
  aggType : SdlType := .structT
  typeCode : SdlType := .structT
  alignment : Alignment := .noAlign
deriving Repr

/-- Total byte extent a member contributes to aggregate sizing
(`_sdl_aggregate_size` union loop, lines 5744-5810, and structure branch,
lines 5857-5908): zero for comments, real size times dimension for items,
size times dimension for subaggregates.  The C structure branch reads the
item fields of a trailing comment member through the union; the embedding
reads them as zero-initialised. -/
def memberTotalSize (m : Member) : Int :=
  match m.payload with
  | .commentB => 0
  | .item i => itemRealSize i * itemDimension i
  | .subaggr s => s.size * subaggrDimension s

/-- Natural size of a member as read by the subaggregate re-alignment scan
of `_sdl_aggregate_size` (lines 5609-5660).  For a subaggregate the C
reads `member->item.size` through the union; modelled from the spec
("re-align ... so its first non-comment member sits at its natural
alignment") as the subaggregate's size. -/
def memberNaturalSize (m : Member) : Int :=
  match m.payload with
  | .item i => i.size
  | .subaggr s => s.size
  | .commentB => 0

/-- The subaggregate offset re-alignment of `_sdl_aggregate_size` (lines
5609-5692): the alignment grain is the largest member size for a union (at
least the union's own type-code size) or the first non-comment member's
size for a structure, and the subaggregate's offset is padded to that grain
under `ALIGN` or to the explicit byte count under `BASEALIGN`. -/
def subaggrAlignedOffset (a : AggDesc) (members : List Member) (off : Int) : Int :=
  if members.isEmpty then off
  else
    let alignSize :=
      if a.aggType = .unionT then
        members.foldl
          (fun acc m =>
            if !sdlIsComment m ∧ acc < memberNaturalSize m then memberNaturalSize m
            else acc)
          (sdlSizeof a.typeCode)
      else
        match members.find? (fun m => !sdlIsComment m) with
        | some m => memberNaturalSize m
        | none => sdlSizeof a.typeCode
    let adjustment :=
      match a.alignment with
      | .noAlign => 0
      | .align =>
        let r := off % alignSize
        if r ≠ 0 then alignSize - r else 0
      | .base n =>
        let r := off % n
        if r ≠ 0 then n - r else 0
    off + adjustment

/-- Intermediate result of `_sdl_aggregate_size` before the size constant
is appended. -/
structure AggSizeCore where
  size : Int
  members : List Member
  bitConsts : List SdlConstant
  fillerCount : Nat
  offset : Int
deriving Repr

/-- `_sdl_aggregate_size` (lines 5561-5940) up to, but excluding, the size
constant.  With no members the size is 0 and no bitfield constants are
generated.  Otherwise: a subaggregate first has its own offset re-aligned;
a structure whose last member is a bitfield with unused tail bits gets a
tail filler; a union's size is the largest member extent, floored by the
implicit-union scalar size (inserting a scalar-sized filler via
`_sdl_determine_offsets` when that floor wins); a structure's size is the
last real member's offset plus its extent (the local `member` pointer still
names the pre-filler last member); and the bitfield size/mask constants are
generated over the final member list. -/
def aggregateSizeCore (a : AggDesc) (members : List Member) (fillerCount : Nat)
    (wordSize : Int) (subOffset : Option Int) : AggSizeCore :=
  let isUnion := a.aggType = .unionT
  let offset :=
    match subOffset with
    | none => 0
    | some off => subaggrAlignedOffset a members off
  match members.getLast? with
  | none =>
    { size := 0, members := members, bitConsts := [], fillerCount := fillerCount,
      offset := offset }
  | some lastM =>
    let sealStep :=
      if sdlIsBitfield lastM ∧ ¬isUnion then
        let i := itemOf lastM
        let availBits := i.size * 8 - i.bitOffset - i.length
        if availBits > 0 then
          (members ++ [fillBitfield i lastM.offset availBits fillerCount], fillerCount + 1)
        else (members, fillerCount)
      else (members, fillerCount)
    let members1 := sealStep.1
    let fc1 := sealStep.2
    let sized :=
      if isUnion then
        let unionSize := sdlSizeof a.typeCode
        let maxSize := members1.foldl
          (fun acc m => if memberTotalSize m > acc then memberTotalSize m else acc) 0
        if maxSize < unionSize then
          let fillItem : SdlItem :=
            { id := fillerId fc1, type := a.typeCode, size := sdlSizeof a.typeCode,
              alignment := a.alignment, pfx := a.pfx,
              tag := sdlGetTag {} none (.base a.typeCode) (sdlAllLower (fillerId fc1)) 0 }
          let r := determineOffsets { offset := 0, payload := .item fillItem }
            members1 true false offset (fc1 + 1)
          (unionSize, r.members ++ [r.member], r.fillerCount)
        else (maxSize, members1, fc1)
      else
        (lastM.offset + memberTotalSize lastM, members1, fc1)
    { size := sized.1, members := sized.2.1,
      bitConsts := createBitfieldConstants sized.2.1 wordSize,
      fillerCount := sized.2.2, offset := offset }

/-- The synthetic size constant `_sdl_aggregate_size` emits for the
aggregate itself (lines 5918-5934): named after the aggregate, decimal
radix, tag `"s"` when the aggregate id is all-lowercase and `"S"`
otherwise, value the computed size, display size the command-line word
size. -/
def mkSizeConstant (id pfx : String) (value wordSize : Int) : SdlConstant :=
  { id := id, pfx := pfx, tag := if sdlAllLower id then "s" else "S",
    radix := .dec, value := value, size := wordSize }

/-- Result of `_sdl_aggregate_size` with the emitted constants in queue
order (bitfield constants first, the aggregate size constant last). -/
structure AggSizeResult where
  size : Int
  members : List Member
  consts : List SdlConstant
  fillerCount : Nat
  offset : Int
deriving Repr

/-- `_sdl_aggregate_size` in full: the core computation followed by the
unconditional emission of the aggregate's own size constant. -/
def aggregateSize (a : AggDesc) (members : List Member) (fillerCount : Nat)
    (wordSize : Int) (subOffset : Option Int) : AggSizeResult :=
  let core := aggregateSizeCore a members fillerCount wordSize subOffset
  { size := core.size, members := core.members,
    consts := core.bitConsts ++ [mkSizeConstant a.id a.pfx core.size wordSize],
    fillerCount := core.fillerCount, offset := core.offset }

/-- Dispatcher return codes used by the embedded entry points. -/
inductive RetCode where
  | normal
  | symNotDef
  | invCondSt
  | zeroLen
  | invUnkLen
  | matchEnd
  | nullStruct
deriving DecidableEq, Repr

/-- The dispatcher state for one open top-level aggregate: the processing
gate, the aggregate's descriptor fields, its member queue, the filler
counter and the command-line word size. -/
structure AggContext where
  processingEnabled : Bool := true
  aggId : String
  aggPfx : String := ""
  aggType : SdlType := .structT
  aggTypeCode : SdlType := .structT
  aggAlignment : Alignment := .noAlign
  members : List Member := []
  fillerCount : Nat := 0
  wordSize : Int := 4
deriving Repr

/-- Map a bitfield subtype option to the host-sized bitfield code
(`sdl_aggregate_member` lines 2762-2791); with no recognised subtype the
generic code stays. -/
def bitfieldTypeOfSubtype : SdlType → SdlType
  | .byte => .bitfldB
  | .word => .bitfldW
  | .long => .bitfldL
  | .quad => .bitfldQ
  | .octa => .bitfldO
  | _ => .bitfld

/-- The item path of `sdl_aggregate_member` (lines 2254-2964) for a
top-level aggregate: with processing disabled the entry returns `Normal`
untouched.  Otherwise the new item member is built from the pending
options.  A `BITFIELD` coerces a zero length option to 1 and reports
`ZeroLength` only when the resulting length is negative (i.e. only for a
negative `LENGTH`); its type code comes from the subtype option (byte by
default) and `sizedBitfield` records whether a subtype was explicitly
given; an unsized bitfield's tag defaults from the generic bitfield code.
`CHARACTER` takes the length option verbatim and `CHARACTER *` reports
`InvalidUnknownLength`.  The member is then tagged, sized, aligned to the
aggregate's alignment, run through `_sdl_determine_offsets`, and appended
to the member queue even when an error code was recorded. -/
def sdlAggregateMemberItem (ctx : AggContext) (name : String) (datatype : SdlType)
    (optLength : Int) (optMask : Bool) (optSigned : Bool)
    (optSubType : Option SdlType) : AggContext × RetCode :=
  if !ctx.processingEnabled then (ctx, .normal)
  else
    let sized := optSubType.isSome
    let subT := optSubType.getD .byte
    let build :=
      match datatype with
      | .bitfld =>
        let len := if optLength = 0 then 1 else optLength
        let btype := bitfieldTypeOfSubtype subT
        let ret := if len < 0 then RetCode.zeroLen else RetCode.normal
        ({ id := name, type := btype, length := len, mask := optMask,
           sizedBitfield := sized, unsignedFlag := !optSigned : SdlItem }, btype, ret)
      | .char =>
        ({ id := name, type := .char, length := optLength : SdlItem }, .char,
         RetCode.normal)
      | .charVary =>
        ({ id := name, type := .charVary, length := optLength : SdlItem }, .charVary,
         RetCode.normal)
      | .charStar =>
        ({ id := name, type := .charStar : SdlItem }, .charStar, RetCode.invUnkLen)
      | t => ({ id := name, type := t : SdlItem }, t, RetCode.normal)
    let item0 := build.1
    let finalType := build.2.1
    let ret := build.2.2
    let tagType :=
      if isBitfieldType finalType ∧ !item0.sizedBitfield then SdlType.bitfld
      else finalType
    let size0 := sdlSizeof finalType
    let size := if datatype = .charVary then size0 + item0.length else size0
    let item :=
      { item0 with
        tag := sdlGetTag {} none (.base tagType) (sdlAllLower name) 0,
        pfx := ctx.aggPfx,
        size := size,
        alignment := ctx.aggAlignment }
    let r := determineOffsets { offset := 0, payload := .item item }
      ctx.members (ctx.aggType = .unionT) true 0 ctx.fillerCount
    ({ ctx with members := r.members ++ [r.member], fillerCount := r.fillerCount },
     ret)

/-- Result of the top-level branch of `sdl_aggregate_compl`. -/
structure ComplResult where
  ctx : AggContext
  size : Int
  consts : List SdlConstant
  ret : RetCode
deriving Repr

/-- The top-level branch of `sdl_aggregate_compl` (lines 2992-3285, depth
1): with processing disabled nothing happens.  Otherwise the aggregate is
sized through `_sdl_aggregate_size` (which also emits the bitfield
constants and the size constant), and then the result code is chosen: an
`END` name differing from the aggregate id gives `MatchEndName`; else an
empty member queue gives `NullStructure`; else `Normal`. -/
def sdlAggregateCompl (ctx : AggContext) (endName : Option String) : ComplResult :=
  if !ctx.processingEnabled then ⟨ctx, 0, [], .normal⟩
  else
    let a : AggDesc :=
      { id := ctx.aggId, pfx := ctx.aggPfx, aggType := ctx.aggType,
        typeCode := ctx.aggTypeCode, alignment := ctx.aggAlignment }
    let r := aggregateSize a ctx.members ctx.fillerCount ctx.wordSize none
    let ret :=
      match endName with
      | some n =>
        if n ≠ ctx.aggId then RetCode.matchEnd
        else if r.members.isEmpty then RetCode.nullStruct
        else RetCode.normal
      | none =>
        if r.members.isEmpty then RetCode.nullStruct
        else RetCode.normal
    ⟨{ ctx with members := r.members, fillerCount := r.fillerCount }, r.size,
      r.consts, ret⟩

/-- States of the conditional-compilation state machine
(`sdl_conditional`). -/
inductive CondState where
  | condNone
  | condIfLang
  | condIfSymb
  | condElseIf
  | condElse
deriving DecidableEq, Repr

/-- The conditional directives dispatched to `sdl_conditional`. -/
inductive CondDirective where
  | ifSymbol (sym : String)
  | ifLanguage (langs : List String)
  | elseIfSymbol (sym : String)
  | elseDir
  | endIfSymbol
  | endIfLanguage
deriving DecidableEq, Repr

/-- The dispatcher state read and written by `sdl_conditional`: the
conditional state stack (top at the head; an empty stack reads as
`CondNone`), the symbol-processing gate, the per-language enable vector,
the specified language names, and the `--symbol name=value` bindings. -/
structure CondContext where
  stack : List CondState := []
  processingEnabled : Bool := true
  langEnable : List Bool := []
  langNames : List String := []
  symbols : List (String × Int) := []
deriving Repr

/-- Current conditional state (`SDL_CUR_COND_STATE`). -/
def curCondState (ctx : CondContext) : CondState :=
  ctx.stack.headD .condNone

/-- First binding of a symbol in the `--symbol` list (the linear scan of
`sdl_conditional` stops at the first `strcmp` match). -/
def lookupSymbol (syms : List (String × Int)) (sym : String) : Option Int :=
  (syms.find? (fun p => p.1 = sym)).map Prod.snd

/-- ASCII-case-insensitive string equality (`strcasecmp`). -/
def strCaseEq (a b : String) : Bool :=
  lowerStr a == lowerStr b

/-- `sdl_conditional` (lines 3616-3988).  `IFSYMBOL` is legal from
`CondNone`, `CondIfLang` or `CondElse`: it pushes `CondIfSymb` and sets the
processing gate from the symbol's binding, reporting `SymbolNotDefined`
when the symbol is unbound.  `ELSE_IFSYMBOL` is legal only from
`CondIfSymb`: it replaces the top with `CondElseIf` and sets the gate from
the binding, but — unlike `IFSYMBOL` — reports nothing when the symbol is
unbound.  `ELSE` inverts the language vector after `IFLANGUAGE` (when
processing is enabled), or inverts the gate after
`IFSYMBOL`/`ELSE_IFSYMBOL`, and is otherwise an error only while
processing is enabled.  `END_IFSYMBOL` is legal from `CondIfSymb`,
`CondElseIf` or `CondElse`: it pops the stack and unconditionally enables
the gate.  `IFLANGUAGE` and `END_IFLANGUAGE` manage the language vector and
are gated on `processingEnabled`.  Every transition not listed reports
`InvalidConditionalState`. -/
def sdlConditional (ctx : CondContext) (d : CondDirective) : CondContext × RetCode :=
  match d with
  | .ifSymbol sym =>
    if curCondState ctx = .condNone ∨ curCondState ctx = .condIfLang ∨
        curCondState ctx = .condElse then
      let ctx := { ctx with stack := .condIfSymb :: ctx.stack }
      match lookupSymbol ctx.symbols sym with
      | some v => ({ ctx with processingEnabled := v ≠ 0 }, .normal)
      | none => (ctx, .symNotDef)
    else (ctx, .invCondSt)
  | .ifLanguage langs =>
    if ctx.processingEnabled then
      if curCondState ctx = .condNone ∨ curCondState ctx = .condIfLang ∨
          curCondState ctx = .condIfSymb ∨ curCondState ctx = .condElseIf ∨
          curCondState ctx = .condElse then
        let vec := ctx.langNames.map
          (fun n => langs.any (fun l => strCaseEq l n))
        ({ ctx with stack := .condIfLang :: ctx.stack, langEnable := vec }, .normal)
      else (ctx, .invCondSt)
    else (ctx, .normal)
  | .elseIfSymbol sym =>
    if curCondState ctx = .condIfSymb then
      let ctx := { ctx with stack := .condElseIf :: ctx.stack.tail }
      match lookupSymbol ctx.symbols sym with
      | some v => ({ ctx with processingEnabled := v ≠ 0 }, .normal)
      | none => (ctx, .normal)
    else (ctx, .invCondSt)
  | .elseDir =>
    if curCondState ctx = .condIfLang ∧ ctx.processingEnabled then
      ({ ctx with
          stack := .condElse :: ctx.stack.tail
          langEnable := ctx.langEnable.map (fun b => !b) }, .normal)
    else if curCondState ctx = .condIfSymb ∨ curCondState ctx = .condElseIf then
      ({ ctx with
          stack := .condElse :: ctx.stack.tail
          processingEnabled := !ctx.processingEnabled }, .normal)
    else if ctx.processingEnabled then (ctx, .invCondSt)
    else (ctx, .normal)
  | .endIfSymbol =>
    if curCondState ctx = .condIfSymb ∨ curCondState ctx = .condElseIf ∨
        curCondState ctx = .condElse then
      ({ ctx with stack := ctx.stack.tail, processingEnabled := true }, .normal)
    else (ctx, .invCondSt)
  | .endIfLanguage =>
    if ctx.processingEnabled then
      if curCondState ctx = .condIfLang ∨ curCondState ctx = .condElse then
        ({ ctx with
            stack := ctx.stack.tail
            langEnable := ctx.langNames.map (fun _ => true) }, .normal)
      else (ctx, .invCondSt)
    else (ctx, .normal)

/-- Empty member used as the default of list lookups. -/
def emptyMember : Member := { payload := .commentB }

/-- Compact per-member view used by the concrete layout theorems: id,
host type, host byte size, bit length, bit offset, byte offset. -/
def memberBrief (m : Member) : String × SdlType × Int × Int × Int × Int :=
  ((itemOf m).id, (itemOf m).type, (itemOf m).size, (itemOf m).length,
    (itemOf m).bitOffset, m.offset)

/-- Bit offset and byte offset of the named item member, when present. -/
def findMemberOffsets (ms : List Member) (nm : String) : Option (Int × Int) :=
  (ms.find? (fun m => (itemOf m).id == nm)).map
    (fun m => ((itemOf m).bitOffset, m.offset))

/-- Whether a name has the `filler_` prefix of synthesised fillers. -/
def isFillerName (s : String) : Bool :=
  s.data.take 7 == "filler_".data

/-- Whether the member directly after the named member is a synthesised
filler of the given bit length. -/
def followedByFillerOfBits (ms : List Member) (nm : String) (bits : Int) : Bool :=
  (List.range ms.length).any (fun j =>
    ((itemOf (ms.getD j emptyMember)).id == nm) &&
    (match (ms.getD (j + 1) emptyMember).payload with
     | .item i => isFillerName i.id && (i.length == bits)
     | _ => false))

/-- Scenario context: `AGGREGATE t STRUCTURE;` with default (packed)
alignment. -/
def promotionDemoStart : AggContext := { aggId := "t" }

/-- After `a BITFIELD LENGTH 35;`. -/
def promotionDemoA : AggContext :=
  (sdlAggregateMemberItem promotionDemoStart "a" .bitfld 35 false false none).1

/-- After `b BITFIELD LENGTH 35;`: the unsized run now totals 70 bits. -/
def promotionDemoB : AggContext :=
  (sdlAggregateMemberItem promotionDemoA "b" .bitfld 35 false false none).1

/-- C1: adding an unsized bitfield that brings the contiguous unsized run
to 70 bits promotes the run's host only to the quadword (8 bytes, 64
bits), not to the octaword the specification requires for sums past 64:
the fourth promotion branch of `_sdl_check_bitfieldSizes` re-tests the
already-impossible longword case (its own comment says "greater than 64
and ... quadword ... change ... to ... octaword"), so
`promoteBitfieldType` never yields the octaword host.  The 70-bit run is
split: `a` keeps bits 0..34 of a quadword at offset 0, a 29-bit filler
seals it, and `b` starts a fresh quadword at offset 8. -/
theorem C1_run_past_64_bits_stays_on_quadword_host :
    promotionDemoB.members.map memberBrief =
      [("a", .bitfldQ, 8, 35, 0, 0),
       ("filler_000", .bitfldQ, 8, 29, 1, 0),
       ("b", .bitfldQ, 8, 35, 0, 8)] ∧
    promoteBitfieldType .bitfldB 70 = .bitfldQ ∧
    promoteBitfieldType .bitfldB 70 ≠ .bitfldO ∧
    sdlSizeof .bitfldQ * 8 = 64 ∧ (64 : Int) < 70 := by
  refine ⟨?_, rfl, by decide, rfl, by decide⟩
  rfl

/-- Scenario context: `STRUCTURE;` named `s`, default alignment. -/
def bitfieldDemoStart : AggContext := { aggId := "s" }

/-- After `f1 BITFIELD LENGTH 3;`. -/
def bitfieldDemoF1 : AggContext :=
  (sdlAggregateMemberItem bitfieldDemoStart "f1" .bitfld 3 false false none).1

/-- After `f2 BITFIELD LENGTH 5;`. -/
def bitfieldDemoF2 : AggContext :=
  (sdlAggregateMemberItem bitfieldDemoF1 "f2" .bitfld 5 false false none).1

/-- After `f3 BITFIELD LENGTH 1;`. -/
def bitfieldDemoF3 : AggContext :=
  (sdlAggregateMemberItem bitfieldDemoF2 "f3" .bitfld 1 false false none).1

/-- `END;` of the three-bitfield structure. -/
def bitfieldDemoClose : ComplResult := sdlAggregateCompl bitfieldDemoF3 none

/-- The layout C2 claims for the three-bitfield structure: bit offsets
(0, 3, 0), byte offsets (0, 0, 1), total size 2, a 7-bit filler directly
after `f2` and a 7-bit filler directly after `f3`. -/
def claimC2Layout : Prop :=
  findMemberOffsets bitfieldDemoClose.ctx.members "f1" = some (0, 0) ∧
  findMemberOffsets bitfieldDemoClose.ctx.members "f2" = some (3, 0) ∧
  findMemberOffsets bitfieldDemoClose.ctx.members "f3" = some (0, 1) ∧
  bitfieldDemoClose.size = 2 ∧
  followedByFillerOfBits bitfieldDemoClose.ctx.members "f2" 7 = true ∧
  followedByFillerOfBits bitfieldDemoClose.ctx.members "f3" 7 = true

/-- C2 counterexample: the claimed layout does not hold — the 9-bit run
promotes to a word host, so `f3` continues the same host at byte offset 0
with bit offset 8 instead of starting a new byte at offset 1, and no filler
separates `f2` from `f3`. -/
theorem C2_claimed_layout_refuted : ¬ claimC2Layout := by
  intro h
  exact absurd h.2.2.1 (by decide)

/-- C2 amended: the computed layout of `STRUCTURE; f1 BITFIELD LENGTH 3;
f2 BITFIELD LENGTH 5; f3 BITFIELD LENGTH 1; END;` has the whole run
promoted to a word host (the three lengths sum to 9 bits): bit offsets
(0, 3, 8), byte offsets (0, 0, 0), total size 2, and one 7-bit filler
following `f3` (none after `f2`); all four bitfields yield size constants
and the aggregate yields its size constant of value 2. -/
theorem C2_actual_layout :
    bitfieldDemoClose.ctx.members.map memberBrief =
      [("f1", .bitfldW, 2, 3, 0, 0),
       ("f2", .bitfldW, 2, 5, 3, 0),
       ("f3", .bitfldW, 2, 1, 8, 0),
       ("filler_000", .bitfldW, 2, 7, 9, 0)] ∧
    bitfieldDemoClose.size = 2 ∧
    followedByFillerOfBits bitfieldDemoClose.ctx.members "f3" 7 = true ∧
    followedByFillerOfBits bitfieldDemoClose.ctx.members "f2" 7 = false ∧
    bitfieldDemoClose.consts.map (fun c => (c.id, c.value)) =
      [("f1", 3), ("f2", 5), ("f3", 1), ("filler_000", 7), ("s", 2)] := by
  exact ⟨rfl, rfl, by decide, by decide, rfl⟩

/-- The spec's words for the explicit-tag rule: "that tag with all
trailing underscores removed". -/
def specTrimAllTrailing (s : String) : String :=
  String.mk ((s.data.reverse.dropWhile (fun c => c = '_')).reverse)

/-- The amended explicit-tag rule, as a second definition following the
corrected wording: trailing underscores are removed from the tag except
that the first character always survives. -/
def specTrimKeepFirst (s : String) : String :=
  match s.data with
  | [] => ""
  | c :: rest => String.mk (c :: (rest.reverse.dropWhile (fun x => x = '_')).reverse)

/-- C5 as stated: an explicit tag comes back with all trailing underscores
removed, and whenever the host id is all-lowercase (the `lower` flag the
callers derive from `sdl_all_lower` of the host id) the returned tag is
lowercased. -/
def claimC5TagResolution : Prop :=
  ∀ (ctx : TagContext) (t : String) (dt : Datatype) (lower : Bool) (fuel : Nat),
    t ≠ "" →
    sdlGetTag ctx (some t) dt lower fuel = specTrimAllTrailing t ∧
    (lower = true →
      sdlGetTag ctx (some t) dt lower fuel = lowerStr (specTrimAllTrailing t))

/-- C5 counterexample: the explicit tag `"AB_"` requested with the
all-lowercase flag set comes back as `"AB"`, not the `"ab"` the claim
requires — `_sdl_get_tag` applies its lowercase loop only in the
defaulted branch, never to an explicit tag. -/
theorem C5_claimed_tag_rule_refuted : ¬ claimC5TagResolution := by
  intro h
  have hc := (h {} "AB_" .unknown true 0 (by decide)).2 rfl
  exact absurd hc (by decide)

/-- C5 amended: an explicit tag is returned with its trailing underscores
removed except that the first character is never removed, and with no case
change regardless of the lowercase flag; the lowercasing driven by an
all-lowercase host id applies only to defaulted tags (for a base type, the
default tag letter is lowercased). -/
theorem C5_explicit_tag_rule (ctx : TagContext) (t : String) (dt : Datatype)
    (lower : Bool) (fuel : Nat) (ht : t ≠ "") :
    sdlGetTag ctx (some t) dt lower fuel = specTrimKeepFirst t ∧
    sdlGetTag ctx (some t) dt lower fuel = sdlGetTag ctx (some t) dt false fuel ∧
    (∀ bt : SdlType, sdlGetTag ctx none (.base bt) true fuel =
      lowerStr (defaultTag bt)) := by
  refine ⟨?_, rfl, fun bt => by simp [sdlGetTag, sdlGetTagDefault]⟩
  obtain ⟨l⟩ := t
  cases l with
  | nil => exact absurd rfl ht
  | cons c rest => rfl

/-- Witness for C5: the amended rule at the explicit tag `"Tag_"` with the
lowercase flag set. -/
theorem C5_explicit_tag_rule_witness :
    ("Tag_" : String) ≠ "" ∧
    (sdlGetTag {} (some "Tag_") .unknown true 0 = specTrimKeepFirst "Tag_" ∧
     sdlGetTag {} (some "Tag_") .unknown true 0 =
       sdlGetTag {} (some "Tag_") .unknown false 0 ∧
     (∀ bt : SdlType, sdlGetTag {} none (.base bt) true 0 =
       lowerStr (defaultTag bt))) :=
  ⟨by decide, C5_explicit_tag_rule {} "Tag_" .unknown true 0 (by decide)⟩

/-- C3: for a bitfield member with the mask option set, closing the
aggregate emits (after its size constant) a mask constant whose value is
`((2 ^ length) - 1) << bitOffset`, with hexadecimal radix, tag `"m"` when
the member id is all-lowercase and `"M"` otherwise, and display size equal
to the member's host width in bytes.  The bounds keep the C computation
(`pow` into `uint64_t`, 64-bit shift) exact: `length ≤ 63` for the
`pow`-to-integer conversion and `length + bitOffset ≤ 64` against shift
truncation. -/
theorem C3_mask_constant (i : SdlItem) (off w : Int)
    (hbf : isBitfieldType i.type = true) (hmask : i.mask = true)
    (h0 : 0 ≤ i.length) (h63 : i.length ≤ 63)
    (_hb : 0 ≤ i.bitOffset) (hsum : i.length + i.bitOffset ≤ 64) :
    constantsForBitfieldMember { offset := off, payload := .item i } w =
      [{ id := i.id, pfx := i.pfx, tag := if sdlAllLower i.id then "s" else "S",
         radix := .dec, value := i.length, size := w },
       { id := i.id, pfx := i.pfx, tag := if sdlAllLower i.id then "m" else "M",
         radix := .hex,
         value := ((2 : Int) ^ i.length.toNat - 1) * 2 ^ i.bitOffset.toNat,
         size := i.size }] := by
  have hv : maskValue i.length i.bitOffset =
      ((2 : Int) ^ i.length.toNat - 1) * 2 ^ i.bitOffset.toNat := by
    unfold maskValue
    have hone : (1 : ℕ) ≤ 2 ^ i.length.toNat := Nat.one_le_two_pow
    have hlt : (2 ^ i.length.toNat - 1) <<< i.bitOffset.toNat < 2 ^ 64 := by
      rw [Nat.shiftLeft_eq]
      calc (2 ^ i.length.toNat - 1) * 2 ^ i.bitOffset.toNat
          < 2 ^ i.length.toNat * 2 ^ i.bitOffset.toNat :=
            Nat.mul_lt_mul_of_lt_of_le (by omega) (Nat.le_refl _)
              (Nat.pos_pow_of_pos _ (by norm_num))
        _ = 2 ^ (i.length.toNat + i.bitOffset.toNat) := (pow_add 2 _ _).symm
        _ ≤ 2 ^ 64 := Nat.pow_le_pow_right (by norm_num) (by omega)
    rw [Nat.mod_eq_of_lt hlt, Nat.shiftLeft_eq]
    push_cast [Nat.cast_sub hone]
    ring
  simp only [constantsForBitfieldMember, hbf, hmask, if_true, hv]

/-- Concrete masked bitfield used as the C3 witness input: a 3-bit field
at bit offset 2 in a byte host. -/
def maskDemoItem : SdlItem :=
  { id := "flg", type := .bitfldB, length := 3, bitOffset := 2, mask := true,
    size := 1 }

/-- Witness for C3: the masked 3-bit field at bit offset 2 yields the mask
constant `((2 ^ 3) - 1) << 2 = 28`, radix hex, tag `"m"` (the id `flg` is
all-lowercase), display size 1 byte. -/
theorem C3_mask_constant_witness :
    isBitfieldType maskDemoItem.type = true ∧ maskDemoItem.mask = true ∧
    constantsForBitfieldMember { offset := 0, payload := .item maskDemoItem } 4 =
      [{ id := "flg", pfx := "", tag := "s", radix := .dec, value := 3, size := 4 },
       { id := "flg", pfx := "", tag := "m", radix := .hex, value := 28, size := 1 }] := by
  refine ⟨rfl, rfl, ?_⟩
  rw [C3_mask_constant maskDemoItem 0 4 rfl rfl (by decide) (by decide)
    (by decide) (by decide)]
  decide

/-- C4: `_sdl_aggregate_size` ends — for an aggregate and for a
subaggregate alike, members or none — by emitting, as the last constant,
a size constant named after the aggregate whose value is the computed
size, with tag `"s"` when the aggregate id is all-lowercase and `"S"`
otherwise (decimal radix, display size the command-line word size). -/
theorem C4_aggregate_size_constant (a : AggDesc) (members : List Member)
    (fc : Nat) (w : Int) (subOff : Option Int) :
    (aggregateSize a members fc w subOff).consts.getLast? =
      some { id := a.id, pfx := a.pfx,
             tag := if sdlAllLower a.id then "s" else "S",
             radix := .dec,
             value := (aggregateSize a members fc w subOff).size, size := w } := by
  simp [aggregateSize, mkSizeConstant, List.getLast?_concat]

/-- C10: a synthesised filler is created with its mask flag false and its
length equal to the bit count handed over by the sealing caller (every
call site passes the unused tail bits of the sealed host: host bits minus
the last member's bit offset and length), and the constant generator
consequently emits no mask-tagged constant for a filler. -/
theorem C10_filler_never_masked (prev : SdlItem) (prevOffset bits : Int)
    (n : Nat) (w : Int) :
    (itemOf (fillBitfield prev prevOffset bits n)).mask = false ∧
    (itemOf (fillBitfield prev prevOffset bits n)).length = bits ∧
    (constantsForBitfieldMember (fillBitfield prev prevOffset bits n) w).filter
      (fun c => c.tag == "M" || c.tag == "m") = [] := by
  refine ⟨rfl, rfl, ?_⟩
  simp only [fillBitfield, constantsForBitfieldMember, itemOf]
  split
  · split
    · next h => exact absurd h (by decide)
    · split <;> rfl
  · rfl

/-- C6 as stated: both symbol-conditional directives — `IFSYMBOL` and
`ELSE_IFSYMBOL` — taken in a state where their transition is allowed,
return `SymbolNotDefined` when the named symbol has no binding. -/
def claimC6SymbolNotDefined : Prop :=
  (∀ (ctx : CondContext) (sym : String),
    (curCondState ctx = .condNone ∨ curCondState ctx = .condIfLang ∨
      curCondState ctx = .condElse) →
    lookupSymbol ctx.symbols sym = none →
    (sdlConditional ctx (.ifSymbol sym)).2 = .symNotDef) ∧
  (∀ (ctx : CondContext) (sym : String),
    curCondState ctx = .condIfSymb →
    lookupSymbol ctx.symbols sym = none →
    (sdlConditional ctx (.elseIfSymbol sym)).2 = .symNotDef)

/-- C6 counterexample: an `ELSE_IFSYMBOL` taken from `CondIfSymb` with an
empty symbol table returns `Normal`, not `SymbolNotDefined` — the
`ELSE_IFSYMBOL` branch of `sdl_conditional` has no `done == false` check
after its lookup loop. -/
theorem C6_elseif_claim_refuted : ¬ claimC6SymbolNotDefined := by
  intro h
  have hc := h.2 { stack := [.condIfSymb] } "X" rfl rfl
  exact absurd hc (by decide)

/-- C6 amended: an accepted `IFSYMBOL` naming an unbound symbol returns
`SymbolNotDefined`, but an accepted `ELSE_IFSYMBOL` naming an unbound
symbol returns `Normal` and leaves the processing gate unchanged. -/
theorem C6_unbound_symbol_behaviour (ctx1 ctx2 : CondContext) (s1 s2 : String)
    (h1 : curCondState ctx1 = .condNone ∨ curCondState ctx1 = .condIfLang ∨
      curCondState ctx1 = .condElse)
    (h2 : lookupSymbol ctx1.symbols s1 = none)
    (h3 : curCondState ctx2 = .condIfSymb)
    (h4 : lookupSymbol ctx2.symbols s2 = none) :
    (sdlConditional ctx1 (.ifSymbol s1)).2 = .symNotDef ∧
    (sdlConditional ctx2 (.elseIfSymbol s2)).2 = .normal ∧
    (sdlConditional ctx2 (.elseIfSymbol s2)).1.processingEnabled =
      ctx2.processingEnabled := by
  refine ⟨?_, ?_, ?_⟩
  · simp only [sdlConditional]
    rw [if_pos h1, h2]
  · simp only [sdlConditional]
    rw [if_pos h3, h4]
  · simp only [sdlConditional]
    rw [if_pos h3, h4]

/-- Witness for C6: `IFSYMBOL X` at top level with no symbols bound gives
`SymbolNotDefined`; `ELSE_IFSYMBOL X` inside an open `IFSYMBOL` gives
`Normal` with the gate untouched. -/
theorem C6_unbound_symbol_behaviour_witness :
    (sdlConditional ({} : CondContext) (.ifSymbol "X")).2 = .symNotDef ∧
    (sdlConditional { stack := [.condIfSymb] } (.elseIfSymbol "X")).2 = .normal ∧
    (sdlConditional { stack := [.condIfSymb] }
      (.elseIfSymbol "X")).1.processingEnabled =
      CondContext.processingEnabled { stack := [.condIfSymb] } :=
  C6_unbound_symbol_behaviour {} { stack := [.condIfSymb] } "X" "X"
    (Or.inl rfl) rfl rfl rfl

/-- C9: every accepted `END_IFSYMBOL` — the conditional state on top of
the stack being `CondIfSymb`, `CondElseIf` or `CondElse` — pops the stack
and sets the processing gate to true unconditionally, whatever the gate
held before the enclosing `IFSYMBOL` and whatever outer symbol
conditionals remain open. -/
theorem C9_end_ifsymbol_enables_processing (ctx : CondContext)
    (h : curCondState ctx = .condIfSymb ∨ curCondState ctx = .condElseIf ∨
      curCondState ctx = .condElse) :
    (sdlConditional ctx .endIfSymbol).1.processingEnabled = true ∧
    (sdlConditional ctx .endIfSymbol).1.stack = ctx.stack.tail ∧
    (sdlConditional ctx .endIfSymbol).2 = .normal := by
  simp only [sdlConditional]
  rw [if_pos h]
  exact ⟨rfl, rfl, rfl⟩

/-- A nested conditional state with processing disabled: two open
`IFSYMBOL` levels, gate off. -/
def nestedDisabledCond : CondContext :=
  { stack := [.condIfSymb, .condIfSymb], processingEnabled := false }

/-- Witness for C9: closing an `IFSYMBOL` that had disabled processing,
nested inside an outer disabled conditional, still re-enables
processing. -/
theorem C9_end_ifsymbol_enables_processing_witness :
    (sdlConditional nestedDisabledCond .endIfSymbol).1.processingEnabled = true ∧
    (sdlConditional nestedDisabledCond .endIfSymbol).1.stack =
      nestedDisabledCond.stack.tail ∧
    (sdlConditional nestedDisabledCond .endIfSymbol).2 = .normal :=
  C9_end_ifsymbol_enables_processing nestedDisabledCond (Or.inl rfl)

/-- The alignment epilogue does not change a member's payload. -/
theorem itemOf_applyMemberAlignment (m : Member) :
    itemOf (applyMemberAlignment m) = itemOf m := by
  cases m with
  | mk off p => cases p <;> rfl

/-- The sized-bitfield resize cascade does not change the declared bit
length. -/
theorem length_resizeSizedBitfield (i : SdlItem) :
    (resizeSizedBitfield i).length = i.length := by
  unfold resizeSizedBitfield
  split <;> rfl

/-- `_sdl_determine_offsets` never changes the declared bit length of the
member being placed (it assigns offsets and may adjust the host
type/size). -/
theorem length_itemOf_alignment_item (off : Int) (j : SdlItem) :
    (itemOf (applyMemberAlignment { offset := off, payload := .item j })).length = j.length := rfl

theorem length_determineOffsets (m : Member) (l : List Member) (u tp : Bool)
    (po : Int) (fc : Nat) :
    (itemOf (determineOffsets m l u tp po fc).member).length = (itemOf m).length := by
  cases m with
  | mk off p =>
    cases p with
    | commentB => rfl
    | subaggr s => rfl
    | item i =>
      unfold determineOffsets
      dsimp only
      split
      · rfl
      · split
        · split
          · exact (length_itemOf_alignment_item _ _).trans (length_resizeSizedBitfield _)
          · repeat' split
            all_goals rfl
        · rfl

/-- C7 as stated: any bitfield member declared with a non-positive length
is reported as `ZeroLength` by the dispatcher. -/
def claimC7ZeroLength : Prop :=
  ∀ (ctx : AggContext) (name : String) (len : Int) (mask signed : Bool)
    (subT : Option SdlType),
    ctx.processingEnabled = true → len ≤ 0 →
    (sdlAggregateMemberItem ctx name .bitfld len mask signed subT).2 = .zeroLen

/-- C7 counterexample: a bitfield declared with length 0 is not reported —
`sdl_aggregate_member` coerces a zero length to 1 before its
`length < 0` check, so the call returns `Normal`. -/
theorem C7_zero_length_claim_refuted : ¬ claimC7ZeroLength := by
  intro h
  have hc := h { aggId := "s" } "f" 0 false false none rfl (le_refl 0)
  exact absurd hc (by decide)

/-- C7 amended: the dispatcher reports `ZeroLength` exactly for a negative
bitfield length; a length of zero (or an absent `LENGTH` option) is
silently coerced to 1, and in every case the member is appended with the
coerced length. -/
theorem C7_negative_length_only (ctx : AggContext) (name : String) (len : Int)
    (mask signed : Bool) (subT : Option SdlType)
    (hp : ctx.processingEnabled = true) :
    (sdlAggregateMemberItem ctx name .bitfld len mask signed subT).2 =
      (if len < 0 then RetCode.zeroLen else RetCode.normal) ∧
    (itemOf ((sdlAggregateMemberItem ctx name .bitfld len mask signed
        subT).1.members.getLastD emptyMember)).length =
      (if len = 0 then 1 else len) := by
  unfold sdlAggregateMemberItem
  simp only [hp, Bool.not_true, Bool.false_eq_true, if_false, List.getLastD_concat,
    length_determineOffsets]
  refine ⟨?_, rfl⟩
  rcases eq_or_ne len 0 with h | h
  · subst h
    norm_num
  · rw [if_neg h]

/-- Witness for C7: a bitfield declared `LENGTH 0` in an enabled context
comes back `Normal` with the member's length coerced to 1. -/
theorem C7_negative_length_only_witness :
    (sdlAggregateMemberItem { aggId := "s" } "f" .bitfld 0 false false none).2 =
      (if (0 : Int) < 0 then RetCode.zeroLen else RetCode.normal) ∧
    (itemOf ((sdlAggregateMemberItem { aggId := "s" } "f" .bitfld 0 false false
        none).1.members.getLastD emptyMember)).length =
      (if (0 : Int) = 0 then 1 else 0) :=
  C7_negative_length_only { aggId := "s" } "f" 0 false false none rfl

/-- C8: completing an aggregate that has no members — with no `END` name
or a matching one — returns `NullStructure`, computes size 0, and still
emits the aggregate's size constant carrying the value 0. -/
theorem C8_empty_aggregate (ctx : AggContext) (endName : Option String)
    (hp : ctx.processingEnabled = true) (hm : ctx.members = [])
    (hn : endName = none ∨ endName = some ctx.aggId) :
    (sdlAggregateCompl ctx endName).ret = .nullStruct ∧
    (sdlAggregateCompl ctx endName).size = 0 ∧
    (sdlAggregateCompl ctx endName).consts =
      [{ id := ctx.aggId, pfx := ctx.aggPfx,
         tag := if sdlAllLower ctx.aggId then "s" else "S",
         radix := .dec, value := 0, size := ctx.wordSize }] := by
  unfold sdlAggregateCompl
  simp only [hp, Bool.not_true, Bool.false_eq_true, if_false]
  rcases hn with hn | hn <;>
    simp [hn, hm, aggregateSize, aggregateSizeCore, mkSizeConstant]

/-- Witness for C8: `AGGREGATE s STRUCTURE; END;` with no members gives
`NullStructure`, size 0, and the constant `s` of value 0. -/
theorem C8_empty_aggregate_witness :
    (sdlAggregateCompl { aggId := "s" } none).ret = .nullStruct ∧
    (sdlAggregateCompl { aggId := "s" } none).size = 0 ∧
    (sdlAggregateCompl { aggId := "s" } none).consts =
      [{ id := "s", pfx := "", tag := if sdlAllLower "s" then "s" else "S",
         radix := .dec, value := 0, size := 4 }] :=
  C8_empty_aggregate { aggId := "s" } none rfl rfl (Or.inl rfl)

end OpenSDL
